import Mathlib

/-!
Verification development for the Web-Bluetooth file-upload servers.

Two server variants exist in the repository:

* `src/server/gatt_server.py` — the binary-protocol variant: a control
  characteristic taking tagged payloads (0x01 = BEGIN + UTF-8 filename,
  0x02 = END, 0x03 = ABORT) and a data characteristic whose writes append
  to a temporary file created in the upload directory; END renames the
  temporary file to a collision-free destination name.
* `src/bluetooth_server.py` — the ASCII-command variant: name, data and
  control characteristics; commands START / END / CANCEL; a global byte
  buffer written directly (truncating open) to the destination on END.

The models below translate the write/read handlers of both variants.
File-system effects are confined to the upload directory, so the directory
is modelled as a flat map from entry name to byte contents, together with
the set of open temporary files.
-/

namespace Gatt

/-! ### Python string primitives used by the servers -/

/-- Characters removed by Python `str.strip()` with no argument
(ASCII whitespace; exotic Unicode whitespace is not needed by any input
considered here). -/
def pyIsSpace (c : Char) : Bool :=
  c = ' ' || c = '\t' || c = '\n' || c = '\r' ||
  c = Char.ofNat 0x0B || c = Char.ofNat 0x0C

/-- Model of Python `str.strip()`: drop whitespace from both ends. -/
def pyStrip (s : String) : String :=
  ⟨(((s.data.dropWhile pyIsSpace).reverse.dropWhile pyIsSpace).reverse : List Char)⟩

/-- Model of Python `os.path.basename` (POSIX): the characters after the
last `'/'`. -/
def pyBasename (s : String) : String :=
  ⟨((s.data.reverse.takeWhile (fun c => c ≠ '/')).reverse : List Char)⟩

/-- Model of Python `os.path.splitext` applied to a single path segment
(no separators): split at the last dot, unless every character before that
dot is itself a dot (so `".."`, `".bashrc"` have empty extensions). In
`gatt_server.py` the function is applied to `upload_dir/name`; since the
dot search never crosses the last separator, splitting the name alone is
equivalent. -/
def pySplitExt (name : String) : String × String :=
  let l := name.data
  let revExt := l.reverse.takeWhile (fun c => c ≠ '.')
  if revExt.length = l.length then (name, "")
  else
    let dotIndex := l.length - revExt.length - 1
    if (l.take dotIndex).all (fun c => c = '.') then (name, "")
    else (⟨l.take dotIndex⟩, ⟨l.drop dotIndex⟩)

/-- Decimal digit characters of a natural number, most significant first,
computed with explicit fuel so that the definition is structural (the fuel
`n + 1` always suffices). Models Python `str(counter)`. -/
def decCharsFuel : Nat → Nat → List Char
  | 0, _ => []
  | f + 1, n =>
    if n < 10 then [Nat.digitChar n]
    else decCharsFuel f (n / 10) ++ [Nat.digitChar (n % 10)]

/-- Decimal string of a natural number (model of Python `str(counter)`). -/
def decStr (n : Nat) : String := ⟨decCharsFuel (n + 1) n⟩

/-! ### UTF-8 lossy decoding

Model of Python `bytes.decode('utf-8', errors='replace')`: valid sequences
produce their code point; an invalid or truncated sequence produces one
U+FFFD replacement character for its longest valid prefix, resuming at the
first offending byte. -/

/-- The U+FFFD replacement character. -/
def replChar : Char := Char.ofNat 0xFFFD

/-- Is the byte a UTF-8 continuation byte (0x80–0xBF)? -/
def isCont (b : Nat) : Bool := 0x80 ≤ b && b < 0xC0

/-- Is `c1` a valid first continuation byte for the 3-byte lead `b`
(rules out overlong `E0 xx` and surrogate `ED xx` forms)? -/
def validCont3 (b c1 : Nat) : Bool :=
  isCont c1 && !(b = 0xE0 && c1 < 0xA0) && !(b = 0xED && 0xA0 ≤ c1)

/-- Is `c1` a valid first continuation byte for the 4-byte lead `b`
(rules out overlong `F0 xx` and out-of-range `F4 xx` forms)? -/
def validCont4 (b c1 : Nat) : Bool :=
  isCont c1 && !(b = 0xF0 && c1 < 0x90) && !(b = 0xF4 && 0x90 ≤ c1)

/-- UTF-8 lossy decoder with fuel (the length of the list suffices). -/
def utf8DecodeAux : Nat → List Nat → List Char
  | 0, _ => []
  | _ + 1, [] => []
  | f + 1, b :: rest =>
    if b < 0x80 then Char.ofNat b :: utf8DecodeAux f rest
    else if b < 0xC2 then replChar :: utf8DecodeAux f rest
    else if b < 0xE0 then
      match rest with
      | [] => [replChar]
      | c1 :: rest2 =>
        if isCont c1 then
          Char.ofNat ((b - 0xC0) * 0x40 + (c1 - 0x80)) :: utf8DecodeAux f rest2
        else replChar :: utf8DecodeAux f (c1 :: rest2)
    else if b < 0xF0 then
      match rest with
      | [] => [replChar]
      | c1 :: rest2 =>
        if validCont3 b c1 then
          match rest2 with
          | [] => [replChar]
          | c2 :: rest3 =>
            if isCont c2 then
              Char.ofNat ((b - 0xE0) * 0x1000 + (c1 - 0x80) * 0x40 + (c2 - 0x80)) ::
                utf8DecodeAux f rest3
            else replChar :: utf8DecodeAux f (c2 :: rest3)
        else replChar :: utf8DecodeAux f (c1 :: rest2)
    else if b < 0xF5 then
      match rest with
      | [] => [replChar]
      | c1 :: rest2 =>
        if validCont4 b c1 then
          match rest2 with
          | [] => [replChar]
          | c2 :: rest3 =>
            if isCont c2 then
              match rest3 with
              | [] => [replChar]
              | c3 :: rest4 =>
                if isCont c3 then
                  Char.ofNat ((b - 0xF0) * 0x40000 + (c1 - 0x80) * 0x1000 +
                    (c2 - 0x80) * 0x40 + (c3 - 0x80)) :: utf8DecodeAux f rest4
                else replChar :: utf8DecodeAux f (c3 :: rest4)
            else replChar :: utf8DecodeAux f (c2 :: rest3)
        else replChar :: utf8DecodeAux f (c1 :: rest2)
    else replChar :: utf8DecodeAux f rest

/-- Model of Python `bytes.decode('utf-8', errors='replace')`. -/
def decodeUtf8Lossy (l : List Nat) : String := ⟨utf8DecodeAux l.length l⟩

/-! ### Data model of the binary-protocol server (`src/server/gatt_server.py`)

`FileTransferService.__init__` creates the shared `transfer_state` dict
(`active`, `filename`, `temp_file`, `bytes_received`); the two `WriteValue`
handlers mutate it.  The upload directory is modelled as the flat list of
its visible entries plus the open temporary files; `tempfile.NamedTemporaryFile`
names are modelled by a fresh counter (the real names carry a random fresh
suffix after the `.upload_` prefix). -/

/-- Errors a `WriteValue`/`ReadValue` handler can raise to BlueZ:
`invalidArgs` is `InvalidArgsException`, `failed` is `FailedException`,
`notSupported` is `NotSupportedException`, `ioError` is an uncaught
`OSError` escaping the handler, and `internal` is an uncaught
`AttributeError`/`TypeError` from using a `None` handle (unreachable from
the initial state). -/
inductive GattError where
  | invalidArgs
  | failed
  | notSupported
  | ioError
  | internal
  deriving DecidableEq, Repr

/-- The commands of the binary control protocol, after decoding
(`CMD_BEGIN = 0x01` carries the lossily-decoded filename text,
`CMD_END = 0x02`, `CMD_ABORT = 0x03`). -/
inductive Cmd where
  | begin (raw : String)
  | endCmd
  | abort
  deriving DecidableEq, Repr

/-- The `transfer_state` dict of `FileTransferService`. The temporary file
handle is identified by the number of its model temp file. -/
structure TransferState where
  active : Bool
  filename : Option String
  temp_file : Option Nat
  bytes_received : Nat
  deriving DecidableEq, Repr

/-- The contents of the upload directory: visible entries (name, bytes),
open or abandoned temporary files (handle, bytes written so far) and the
counter generating fresh temporary handles. -/
structure FS where
  entries : List (String × List Nat)
  temps : List (Nat × List Nat)
  nextTemp : Nat
  deriving DecidableEq, Repr

/-- The whole server: transfer state plus upload-directory contents. -/
structure Server where
  state : TransferState
  fs : FS
  deriving DecidableEq, Repr

/-- The on-disk name of a model temporary file (`tempfile.NamedTemporaryFile`
with `prefix='.upload_'` in the upload directory). -/
def tempName (id : Nat) : String := ".upload_" ++ decStr id

/-- Model of `os.path.exists(os.path.join(upload_dir, n))` for a
separator-free `n`: `upload_dir/.` and `upload_dir/..` always exist (they
are the directory itself and its parent), and otherwise existence means a
visible entry or a temporary file of that name. -/
def pexists (fs : FS) (n : String) : Bool :=
  n == "." || n == ".." || fs.entries.any (fun e => e.1 == n) ||
    fs.temps.any (fun t => tempName t.1 == n)

/-- Model of `os.unlink(temp.name)` (and of closing the handle, which has
no observable effect here): drop the temporary file. -/
def removeTemp (fs : FS) (id : Nat) : FS :=
  { fs with temps := fs.temps.eraseP (fun t => t.1 == id) }

/-- Model of `temp_file.write(data)`: append to the temporary file. -/
def appendTemp (fs : FS) (id : Nat) (d : List Nat) : FS :=
  { fs with temps := fs.temps.map (fun t => if t.1 == id then (t.1, t.2 ++ d) else t) }

/-- Bytes written to a temporary file so far. -/
def getTemp (fs : FS) (id : Nat) : List Nat :=
  ((fs.temps.find? (fun t => t.1 == id)).map Prod.snd).getD []

/-- A collision-avoidance candidate: `'{}_{}{}'.format(base, counter, ext)`
restricted to the name component. -/
def mkCand (stem ext : String) (k : Nat) : String :=
  stem ++ "_" ++ decStr k ++ ext

/-- The `while os.path.exists(final_path)` loop of the END handler, with
fuel: starting at counter `k`, return the first free candidate.  The fuel
used below always suffices (some candidate within it is free). -/
def collideLoop (fs : FS) (stem ext : String) : Nat → Nat → String
  | 0, k => mkCand stem ext k
  | f + 1, k =>
    if pexists fs (mkCand stem ext k) then collideLoop fs stem ext f (k + 1)
    else mkCand stem ext k

/-- The destination-name computation of the END handler: keep the declared
name if it is free, otherwise append `_1`, `_2`, … before the extension
until a free name is found. -/
def finalizeName (fs : FS) (name : String) : String :=
  if pexists fs name then
    let se := pySplitExt name
    collideLoop fs se.1 se.2 (fs.entries.length + fs.temps.length + 1) 1
  else name

/-- The BEGIN handler's filename sanitization:
`os.path.basename(raw).strip()`, defaulting to `'unnamed_upload'` when the
result is empty. -/
def sanitizeFilename (raw : String) : String :=
  let filename := pyStrip (pyBasename raw)
  if filename = "" then "unnamed_upload" else filename

/-- The canonical idle transfer state: the initial value of
`transfer_state` and the value stored by END and ABORT. -/
def idleState : TransferState :=
  { active := false, filename := none, temp_file := none, bytes_received := 0 }

/-- The decoded-command part of `FileControlCharacteristic.WriteValue`:
BEGIN aborts any existing transfer (close + unlink) and opens a fresh
temporary file; END closes the temporary file, picks a collision-free
destination and renames the temporary file to it; ABORT closes and unlinks
the temporary file.  A `None` handle where a live one is required raises
(`internal`). -/
def applyCtrl (s : Server) : Cmd → Except GattError Server
  | .begin raw =>
    let filename := sanitizeFilename raw
    let fs1 :=
      match s.state.active, s.state.temp_file with
      | true, some id => removeTemp s.fs id
      | _, _ => s.fs
    let id := fs1.nextTemp
    let fs2 := { fs1 with temps := fs1.temps ++ [(id, [])], nextTemp := id + 1 }
    .ok { state := { active := true, filename := some filename,
                     temp_file := some id, bytes_received := 0 },
          fs := fs2 }
  | .endCmd =>
    if s.state.active = false then .ok s
    else
      match s.state.temp_file, s.state.filename with
      | some id, some fn =>
        let content := getTemp s.fs id
        let final := finalizeName s.fs fn
        .ok { state := idleState,
              fs := { entries := s.fs.entries ++ [(final, content)],
                      temps := (removeTemp s.fs id).temps,
                      nextTemp := s.fs.nextTemp } }
      | _, _ => .error .internal
  | .abort =>
    let fs1 :=
      match s.state.active, s.state.temp_file with
      | true, some id => removeTemp s.fs id
      | _, _ => s.fs
    .ok { state := idleState, fs := fs1 }

/-- The raw-payload decoding of `FileControlCharacteristic.WriteValue`:
an empty payload or an unrecognized tag raises `InvalidArgsException`;
BEGIN requires at least one filename byte and decodes it lossily. -/
def parseCtrl (data : List Nat) : Except GattError Cmd :=
  match data with
  | [] => .error .invalidArgs
  | b :: rest =>
    if b = 1 then
      if rest = [] then .error .invalidArgs
      else .ok (.begin (decodeUtf8Lossy rest))
    else if b = 2 then .ok .endCmd
    else if b = 3 then .ok .abort
    else .error .invalidArgs

/-- `FileControlCharacteristic.WriteValue`: decode, then apply. No state is
mutated before a decode error is raised. -/
def controlWrite (s : Server) (data : List Nat) : Except GattError Server :=
  (parseCtrl data).bind (applyCtrl s)

/-- `FileDataCharacteristic.WriteValue`: reject when no transfer is active
(`FailedException`), otherwise append to the temporary file and increment
the byte counter. `ioFail` models the underlying `write` raising `OSError`:
the exception escapes the handler before any state is mutated. -/
def dataWrite (s : Server) (payload : List Nat) (ioFail : Bool) :
    Except GattError Server :=
  if s.state.active = false then .error .failed
  else
    match s.state.temp_file with
    | none => .error .internal
    | some id =>
      if ioFail then .error .ioError
      else
        .ok { state := { s.state with
                bytes_received := s.state.bytes_received + payload.length },
              fs := appendTemp s.fs id payload }

/-- `ReadValue` on the control characteristic of the binary variant: the
characteristic does not override the base handler, which raises
`NotSupportedException` (its flags are write-only). -/
def gattControlRead : Except GattError (List Nat) := .error .notSupported

/-- The declared flags of the binary variant's control characteristic. -/
def gattControlFlags : List String := ["write", "write-without-response"]

/-- An external attribute-write event: a control write carries its raw
payload; a data write carries the chunk and whether the underlying file
write fails. -/
inductive Event where
  | control (payload : List Nat)
  | data (payload : List Nat) (ioFail : Bool)
  deriving DecidableEq, Repr

/-- Dispatch one event to its handler. -/
def stepEvent (s : Server) : Event → Except GattError Server
  | .control payload => controlWrite s payload
  | .data payload ioFail => dataWrite s payload ioFail

/-- Run one event: a raised exception leaves the server unchanged (the
handlers raise before mutating anything). -/
def runEvent (s : Server) (e : Event) : Server :=
  match stepEvent s e with
  | .ok s' => s'
  | .error _ => s

/-- Run a serialized sequence of events. -/
def runEvents (s : Server) (evs : List Event) : Server :=
  evs.foldl runEvent s

/-- The server at process start: idle transfer state over whatever the
upload directory already contains. -/
def initServer (fs0 : FS) : Server := { state := idleState, fs := fs0 }

/-- Run a list of successful data-chunk writes. -/
def runDataList (s : Server) : List (List Nat) → Except GattError Server
  | [] => .ok s
  | d :: ds =>
    match dataWrite s d false with
    | .ok s' => runDataList s' ds
    | .error e => .error e

/-! ### Data model of the ASCII-command server (`src/bluetooth_server.py`)

Three characteristics over the globals `file_buffer` / `file_name`:
name writes set `file_name`, data writes extend the buffer, control writes
take the ASCII commands START / END / CANCEL, and the control
characteristic's stored `value` (READY at startup) is returned by its
`ReadValue`.  The upload directory is again a flat map keyed by the path
relative to it.  Storage is total in the model: the `except` branch of END
that reports ERROR on an `open`/`write` failure is not exercised by any
claim.  The name characteristic's raw readable mirror `self.value` is not
modelled (no claim concerns it). -/

/-- ASCII bytes of a status token, as built by the `ord(...)` lists in
`FileControlCharacteristic`. -/
def asciiStr (s : String) : List Nat := s.data.map Char.toNat

/-- Write `v` at key `n` of the flat directory: truncating overwrite of an
existing entry, otherwise a new entry (model of `open(path, 'wb')` plus
`write`). -/
def setEntry (es : List (String × List Nat)) (n : String) (v : List Nat) :
    List (String × List Nat) :=
  if es.any (fun e => e.1 == n) then
    es.map (fun e => if e.1 == n then (e.1, v) else e)
  else es ++ [(n, v)]

/-- Split a character list at every `'/'` (the segments of a POSIX path;
`cur` accumulates the current segment in reverse). -/
def splitSegsAux : List Char → List Char → List String
  | [], cur => [⟨cur.reverse⟩]
  | c :: rest, cur =>
    if c = '/' then ⟨cur.reverse⟩ :: splitSegsAux rest []
    else splitSegsAux rest (c :: cur)

/-- The `'/'`-separated segments of a path string. -/
def splitSegs (s : String) : List String := splitSegsAux s.data []

/-- Resolution of the segments of a relative path against an opaque root:
`true` iff `.`/`..` resolution never climbs above the root. `depth` is the
number of directories descended so far. -/
def resolveOk : List String → Nat → Bool
  | [], _ => true
  | seg :: rest, depth =>
    if seg = "" || seg = "." then resolveOk rest depth
    else if seg = ".." then
      match depth with
      | 0 => false
      | d + 1 => resolveOk rest d
    else resolveOk rest (depth + 1)

/-- Model of the END handler's traversal check
`os.path.abspath(file_path).startswith(os.path.abspath(upload_directory))`,
with the upload directory as an opaque absolute root: an absolute
`file_name` replaces the root and is rejected, and otherwise the check
passes iff resolving the name's segments never escapes the root.  (The
string-prefix corner case where an escaping path re-enters a sibling
directory whose name extends the root's is not represented.) -/
def btPathOk (fn : String) : Bool :=
  !(fn.data.head? == some '/') && resolveOk (splitSegs fn) 0

/-- The ASCII-variant server state: the global `file_buffer` and
`file_name`, the control characteristic's readable `value`, and the upload
directory keyed by path relative to it. -/
structure BtState where
  fileBuffer : List Nat
  fileName : String
  ctrlValue : List Nat
  fs : List (String × List Nat)
  deriving DecidableEq, Repr

/-- The ASCII-variant server at process start over upload-directory
contents `fs0`: empty buffer, no file name, control value READY. -/
def btInit (fs0 : List (String × List Nat)) : BtState :=
  { fileBuffer := [], fileName := "", ctrlValue := asciiStr "READY", fs := fs0 }

/-- `FileDataCharacteristic.WriteValue` of the ASCII variant: always
appends to the global buffer. -/
def btDataWrite (st : BtState) (d : List Nat) : BtState :=
  { st with fileBuffer := st.fileBuffer ++ d }

/-- `FileNameCharacteristic.WriteValue`, at the level of the decoded text
(the handler decodes the payload as strict UTF-8). -/
def btNameWrite (st : BtState) (s : String) : BtState :=
  { st with fileName := s }

/-- `FileControlCharacteristic.ReadValue` of the ASCII variant: returns
the stored status value, never raising. -/
def btControlRead (st : BtState) : List Nat := st.ctrlValue

/-- `FileControlCharacteristic.WriteValue` of the ASCII variant, at the
level of the decoded command text: START clears the buffer (STARTED), END
refuses when no name is set or the traversal check fails (ERROR) and
otherwise writes the buffer directly to `upload_dir/file_name` with a
truncating open and clears it (SAVED), CANCEL clears the buffer
(CANCELLED); an unknown command only logs. -/
def btControlWrite (st : BtState) (command : String) : BtState :=
  if command = "START" then
    { st with fileBuffer := [], ctrlValue := asciiStr "STARTED" }
  else if command = "END" then
    if st.fileName = "" then { st with ctrlValue := asciiStr "ERROR" }
    else if btPathOk st.fileName = false then
      { st with ctrlValue := asciiStr "ERROR" }
    else
      { st with fs := setEntry st.fs st.fileName st.fileBuffer,
                ctrlValue := asciiStr "SAVED", fileBuffer := [] }
  else if command = "CANCEL" then
    { st with fileBuffer := [], ctrlValue := asciiStr "CANCELLED" }
  else st

/-! ### Auxiliary definitions for the statements and proofs -/

/-- Decimal value of a digit string (proof-side inverse of `decStr`). -/
def decVal (l : List Char) : Nat :=
  l.foldl (fun a c => 10 * a + (c.toNat - 48)) 0

/-- All names currently present in the upload directory (visible entries
and temporary files). -/
def fsNames (fs : FS) : List String :=
  fs.entries.map Prod.fst ++ fs.temps.map (fun t => tempName t.1)

/-- A genuine single path segment: non-empty, free of separators, and not
one of the two directory links. A file whose name satisfies this lies
directly inside the upload directory. -/
def goodSeg (n : String) : Prop :=
  n ≠ "" ∧ n ≠ "." ∧ n ≠ ".." ∧ '/' ∉ n.data

/-- The state/resource invariant: the temporary-file handle is present
exactly when a transfer is active. -/
def tempIffActive (s : Server) : Prop :=
  s.state.temp_file.isSome = s.state.active

/-- The stored declared name is always a sanitizer output: non-empty and
separator-free. -/
def goodName (s : Server) : Prop :=
  ∀ fn, s.state.filename = some fn → fn ≠ "" ∧ '/' ∉ fn.data

/-- Lookup of an entry's contents in the flat directory of the ASCII
variant. -/
def lookupEntry (es : List (String × List Nat)) (n : String) :
    Option (List Nat) :=
  (es.find? (fun e => e.1 == n)).map Prod.snd

/-! ### Lemmas on decimal strings -/

theorem digitChar_toNat {n : Nat} (h : n < 10) : (Nat.digitChar n).toNat = n + 48 := by
  interval_cases n <;> decide

theorem digitChar_ne_slash {n : Nat} (h : n < 10) : Nat.digitChar n ≠ '/' := by
  interval_cases n <;> decide

theorem decVal_append_digit (l : List Char) (c : Char) :
    decVal (l ++ [c]) = 10 * decVal l + (c.toNat - 48) := by
  simp [decVal, List.foldl_append]

theorem decVal_decCharsFuel : ∀ f n, n < f → decVal (decCharsFuel f n) = n := by
  intro f
  induction f with
  | zero => intro n h; omega
  | succ f ih =>
    intro n h
    by_cases h10 : n < 10
    · simp [decCharsFuel, h10, decVal, digitChar_toNat h10]
    · have hdiv : n / 10 < f := by
        have h1 : n / 10 < n := Nat.div_lt_self (by omega) (by omega)
        omega
      have hmod : n % 10 < 10 := Nat.mod_lt _ (by omega)
      simp only [decCharsFuel, if_neg h10, decVal_append_digit, ih _ hdiv,
        digitChar_toNat hmod]
      omega

theorem decStr_inj {a b : Nat} (h : decStr a = decStr b) : a = b := by
  have hd : decCharsFuel (a + 1) a = decCharsFuel (b + 1) b := congrArg String.data h
  have := congrArg decVal hd
  rwa [decVal_decCharsFuel _ _ (Nat.lt_succ_self a),
    decVal_decCharsFuel _ _ (Nat.lt_succ_self b)] at this

theorem decCharsFuel_ne_slash : ∀ f n c, c ∈ decCharsFuel f n → c ≠ '/' := by
  intro f
  induction f with
  | zero => intro n c h; simp [decCharsFuel] at h
  | succ f ih =>
    intro n c h
    by_cases h10 : n < 10
    · simp [decCharsFuel, h10] at h
      exact h ▸ digitChar_ne_slash h10
    · simp only [decCharsFuel, if_neg h10, List.mem_append, List.mem_singleton] at h
      rcases h with h | h
      · exact ih _ _ h
      · exact h ▸ digitChar_ne_slash (Nat.mod_lt _ (by omega))

/-! ### Lemmas on collision candidates -/

theorem mkCand_data (stem ext : String) (k : Nat) :
    (mkCand stem ext k).data =
      stem.data ++ '_' :: ((decStr k).data ++ ext.data) := by
  simp [mkCand, String.data_append]

theorem underscore_mem_mkCand (stem ext : String) (k : Nat) :
    '_' ∈ (mkCand stem ext k).data := by
  rw [mkCand_data]
  simp

theorem mkCand_ne_dot (stem ext : String) (k : Nat) : mkCand stem ext k ≠ "." := by
  intro h
  have := underscore_mem_mkCand stem ext k
  rw [h] at this
  simp at this

theorem mkCand_ne_dotdot (stem ext : String) (k : Nat) : mkCand stem ext k ≠ ".." := by
  intro h
  have := underscore_mem_mkCand stem ext k
  rw [h] at this
  simp at this

theorem mkCand_inj {stem ext : String} {a b : Nat}
    (h : mkCand stem ext a = mkCand stem ext b) : a = b := by
  have hd := congrArg String.data h
  rw [mkCand_data, mkCand_data] at hd
  have h1 := List.append_cancel_left hd
  have h2 : (decStr a).data = (decStr b).data :=
    List.append_cancel_right (List.cons.inj h1).2
  exact decStr_inj (String.ext h2)

theorem mkCand_no_slash {stem ext : String} (k : Nat)
    (hs : '/' ∉ stem.data) (he : '/' ∉ ext.data) :
    '/' ∉ (mkCand stem ext k).data := by
  rw [mkCand_data]
  intro h
  simp only [List.mem_append, List.mem_cons] at h
  rcases h with h | h | h | h
  · exact hs h
  · exact absurd h.symm (by decide)
  · exact decCharsFuel_ne_slash _ _ _ h rfl
  · exact he h

theorem pexists_true_iff (fs : FS) (n : String) :
    pexists fs n = true ↔ n = "." ∨ n = ".." ∨ n ∈ fsNames fs := by
  simp only [pexists, fsNames, Bool.or_eq_true, beq_iff_eq, List.any_eq_true,
    List.mem_append, List.mem_map]
  constructor
  · rintro (((h | h) | ⟨e, he, rfl⟩) | ⟨t, ht, rfl⟩)
    · exact Or.inl h
    · exact Or.inr (Or.inl h)
    · exact Or.inr (Or.inr (Or.inl ⟨e, he, rfl⟩))
    · exact Or.inr (Or.inr (Or.inr ⟨t, ht, rfl⟩))
  · rintro (h | h | ⟨e, he, rfl⟩ | ⟨t, ht, rfl⟩)
    · exact Or.inl (Or.inl (Or.inl h))
    · exact Or.inl (Or.inl (Or.inr h))
    · exact Or.inl (Or.inr ⟨e, he, rfl⟩)
    · exact Or.inr ⟨t, ht, rfl⟩

/-- Pigeonhole: among the first `|entries| + |temps| + 1` collision
candidates, at least one name is free in the directory. -/
theorem exists_free_cand (fs : FS) (stem ext : String) :
    ∃ k, 1 ≤ k ∧ k ≤ fs.entries.length + fs.temps.length + 1 ∧
      pexists fs (mkCand stem ext k) = false := by
  by_contra hall
  push_neg at hall
  set N := fs.entries.length + fs.temps.length with hN
  have hmem : ∀ k ∈ Finset.Icc 1 (N + 1), mkCand stem ext k ∈ fsNames fs := by
    intro k hk
    rw [Finset.mem_Icc] at hk
    have h := hall k hk.1 hk.2
    simp only [ne_eq, Bool.not_eq_false] at h
    rcases (pexists_true_iff fs _).mp h with h1 | h1 | h1
    · exact absurd h1 (mkCand_ne_dot stem ext k)
    · exact absurd h1 (mkCand_ne_dotdot stem ext k)
    · exact h1
  have hsub : (Finset.Icc 1 (N + 1)).image (mkCand stem ext) ⊆
      (fsNames fs).toFinset := by
    intro x hx
    rw [Finset.mem_image] at hx
    obtain ⟨k, hk, rfl⟩ := hx
    exact List.mem_toFinset.mpr (hmem k hk)
  have hcard1 : ((Finset.Icc 1 (N + 1)).image (mkCand stem ext)).card = N + 1 := by
    rw [Finset.card_image_of_injOn (fun a _ b _ h => mkCand_inj h), Nat.card_Icc]
    omega
  have hcard2 : (fsNames fs).toFinset.card ≤ N := by
    calc (fsNames fs).toFinset.card ≤ (fsNames fs).length := List.toFinset_card_le _
    _ = N := by simp [fsNames, hN]
  have := Finset.card_le_card hsub
  omega

/-- The collision loop returns the first free candidate at or after its
starting counter, provided that candidate lies within the fuel. -/
theorem collideLoop_first_free (fs : FS) (stem ext : String) :
    ∀ fuel k K, k ≤ K → K < k + fuel →
      pexists fs (mkCand stem ext K) = false →
      (∀ j, k ≤ j → j < K → pexists fs (mkCand stem ext j) = true) →
      collideLoop fs stem ext fuel k = mkCand stem ext K := by
  intro fuel
  induction fuel with
  | zero => intro k K h1 h2 _ _; omega
  | succ f ih =>
    intro k K h1 h2 hfree htaken
    rcases Nat.eq_or_lt_of_le h1 with rfl | hlt
    · simp [collideLoop, hfree]
    · have hk : pexists fs (mkCand stem ext k) = true := htaken k le_rfl hlt
      simp only [collideLoop, hk, if_true]
      exact ih (k + 1) K hlt (by omega) hfree (fun j hj1 hj2 => htaken j (by omega) hj2)

/-- Both branches of the collision loop return candidates. -/
theorem collideLoop_is_cand (fs : FS) (stem ext : String) :
    ∀ fuel k, ∃ k', collideLoop fs stem ext fuel k = mkCand stem ext k' := by
  intro fuel
  induction fuel with
  | zero => intro k; exact ⟨k, rfl⟩
  | succ f ih =>
    intro k
    by_cases h : pexists fs (mkCand stem ext k) = true
    · simpa [collideLoop, h] using ih (k + 1)
    · exact ⟨k, by simp [collideLoop, h]⟩

/-- The destination-name computation, in the collision case: the result is
the candidate with the least counter, starting from 1, whose name is free. -/
theorem finalizeName_collision (fs : FS) (name : String)
    (h : pexists fs name = true) :
    ∃ K, 1 ≤ K ∧
      finalizeName fs name = mkCand (pySplitExt name).1 (pySplitExt name).2 K ∧
      pexists fs (mkCand (pySplitExt name).1 (pySplitExt name).2 K) = false ∧
      ∀ j, 1 ≤ j → j < K →
        pexists fs (mkCand (pySplitExt name).1 (pySplitExt name).2 j) = true := by
  obtain ⟨k0, hk01, hk0N, hk0free⟩ :=
    exists_free_cand fs (pySplitExt name).1 (pySplitExt name).2
  have hp0 : pexists fs
      (mkCand (pySplitExt name).1 (pySplitExt name).2 ((k0 - 1) + 1)) = false := by
    rw [Nat.sub_add_cancel hk01]
    exact hk0free
  have hex : ∃ m,
      pexists fs (mkCand (pySplitExt name).1 (pySplitExt name).2 (m + 1)) = false :=
    ⟨k0 - 1, hp0⟩
  classical
  let K := Nat.find hex + 1
  have hKfree : pexists fs (mkCand (pySplitExt name).1 (pySplitExt name).2 K) = false :=
    Nat.find_spec hex
  have hKmin : ∀ j, 1 ≤ j → j < K →
      pexists fs (mkCand (pySplitExt name).1 (pySplitExt name).2 j) = true := by
    intro j hj1 hjK
    have hlt : j - 1 < Nat.find hex := by omega
    have := Nat.find_min hex hlt
    rw [Bool.not_eq_false] at this
    simpa [Nat.sub_add_cancel hj1] using this
  have hKle : K ≤ k0 := by
    have := Nat.find_min' hex hp0
    omega
  refine ⟨K, by omega, ?_, hKfree, hKmin⟩
  rw [finalizeName, if_pos h]
  exact collideLoop_first_free fs _ _ _ 1 K (by omega) (by omega) hKfree hKmin

/-! ### Lemmas on the filename sanitizer -/

theorem pyBasename_no_slash (s : String) : '/' ∉ (pyBasename s).data := by
  intro h
  rw [pyBasename] at h
  simp only [List.mem_reverse] at h
  exact absurd (List.mem_takeWhile_imp h) (by simp)

theorem pyStrip_subset {s : String} {c : Char} (h : c ∈ (pyStrip s).data) :
    c ∈ s.data := by
  rw [pyStrip] at h
  simp only [List.mem_reverse] at h
  have h1 := (List.dropWhile_sublist pyIsSpace).mem h
  rw [List.mem_reverse] at h1
  exact (List.dropWhile_sublist pyIsSpace).mem h1

theorem sanitizeFilename_ne_empty (raw : String) : sanitizeFilename raw ≠ "" := by
  rw [sanitizeFilename]
  split
  · decide
  · assumption

theorem sanitizeFilename_no_slash (raw : String) :
    '/' ∉ (sanitizeFilename raw).data := by
  rw [sanitizeFilename]
  split
  · decide
  · intro h
    exact pyBasename_no_slash raw (pyStrip_subset h)

theorem pySplitExt_append (name : String) :
    (pySplitExt name).1.data ++ (pySplitExt name).2.data = name.data := by
  rw [pySplitExt]
  split
  · simp
  · dsimp only
    split
    · simp
    · simp [List.take_append_drop]

/-- A finalized destination name is a genuine path segment whenever the
declared name is non-empty and separator-free: the file lands directly
inside the upload directory. -/
theorem goodSeg_finalizeName (fs : FS) (fn : String)
    (h1 : fn ≠ "") (h2 : '/' ∉ fn.data) : goodSeg (finalizeName fs fn) := by
  by_cases hp : pexists fs fn = true
  · obtain ⟨K, _, heq, _, _⟩ := finalizeName_collision fs fn hp
    rw [heq]
    have hsub : '/' ∉ (pySplitExt fn).1.data ∧ '/' ∉ (pySplitExt fn).2.data := by
      constructor <;> intro hmem <;>
        exact h2 (by rw [← pySplitExt_append fn]; simp [hmem])
    refine ⟨?_, mkCand_ne_dot _ _ _, mkCand_ne_dotdot _ _ _,
      mkCand_no_slash _ hsub.1 hsub.2⟩
    intro hemp
    have := underscore_mem_mkCand (pySplitExt fn).1 (pySplitExt fn).2 K
    rw [hemp] at this
    simp at this
  · rw [Bool.not_eq_true] at hp
    rw [finalizeName, hp]
    simp only [Bool.false_eq_true, if_false]
    refine ⟨h1, ?_, ?_, h2⟩
    · intro h; rw [h] at hp; simp [pexists] at hp
    · intro h; rw [h] at hp; simp [pexists] at hp

/-! ### Housekeeping lemmas on the temporary-file list -/

theorem eraseP_append_fresh (l : List (Nat × List Nat)) (id : Nat) (x : List Nat)
    (h : ∀ t ∈ l, t.1 ≠ id) :
    (l ++ [(id, x)]).eraseP (fun t => t.1 == id) = l := by
  rw [List.eraseP_append_right _ (by simpa using h)]
  simp [List.eraseP_cons]

theorem map_update_fresh (l : List (Nat × List Nat)) (id : Nat) (d : List Nat)
    (h : ∀ t ∈ l, t.1 ≠ id) :
    l.map (fun t => if t.1 == id then (t.1, t.2 ++ d) else t) = l := by
  conv_rhs => rw [← List.map_id l]
  refine List.map_congr_left ?_
  intro t ht
  simp [h t ht]

theorem map_update_fresh_eq (l : List (Nat × List Nat)) (id : Nat) (d : List Nat)
    (h : ∀ t ∈ l, t.1 ≠ id) :
    l.map (fun t => if t.1 = id then (t.1, t.2 ++ d) else t) = l := by
  conv_rhs => rw [← List.map_id l]
  refine List.map_congr_left ?_
  intro t ht
  simp [h t ht]

theorem find?_append_fresh (l : List (Nat × List Nat)) (id : Nat) (x : List Nat)
    (h : ∀ t ∈ l, t.1 ≠ id) :
    (l ++ [(id, x)]).find? (fun t => t.1 == id) = some (id, x) := by
  rw [List.find?_append]
  have : l.find? (fun t => t.1 == id) = none := by
    rw [List.find?_eq_none]
    intro t ht
    simp [h t ht]
  simp [this]

theorem getTemp_append_fresh (fs : FS) (id : Nat) (x : List Nat)
    (h : ∀ t ∈ fs.temps, t.1 ≠ id) :
    getTemp { fs with temps := fs.temps ++ [(id, x)] } id = x := by
  simp [getTemp, find?_append_fresh fs.temps id x h]

theorem appendTemp_appendTemp (fs : FS) (id : Nat) (a b : List Nat) :
    appendTemp (appendTemp fs id a) id b = appendTemp fs id (a ++ b) := by
  simp only [appendTemp, List.map_map]
  congr 1
  refine List.map_congr_left ?_
  intro t _
  by_cases h : t.1 = id <;> simp [h, Function.comp]

/-! ### Step lemmas and invariants of the binary-protocol machine -/

theorem applyCtrl_tempIffActive {s s' : Server} {c : Cmd}
    (hs : tempIffActive s) (h : applyCtrl s c = .ok s') : tempIffActive s' := by
  cases c with
  | begin raw =>
    simp only [applyCtrl, Except.ok.injEq] at h
    subst h
    rfl
  | endCmd =>
    rw [applyCtrl] at h
    split at h
    · exact Except.ok.inj h ▸ hs
    · split at h
      · exact Except.ok.inj h ▸ rfl
      · exact absurd h (by simp)
  | abort =>
    simp only [applyCtrl, Except.ok.injEq] at h
    subst h
    rfl

theorem dataWrite_tempIffActive {s s' : Server} {p : List Nat} {f : Bool}
    (hs : tempIffActive s) (h : dataWrite s p f = .ok s') : tempIffActive s' := by
  rw [dataWrite] at h
  split at h
  · exact absurd h (by simp)
  · split at h
    · exact absurd h (by simp)
    · split at h
      · exact absurd h (by simp)
      · exact Except.ok.inj h ▸ hs

theorem runEvent_tempIffActive {s : Server} {e : Event} (hs : tempIffActive s) :
    tempIffActive (runEvent s e) := by
  rw [runEvent]
  split
  case h_2 => exact hs
  case h_1 s' heq =>
    cases e with
    | control payload =>
      rw [stepEvent, controlWrite] at heq
      cases hp : parseCtrl payload with
      | error err => rw [hp] at heq; exact absurd heq (by simp [Except.bind])
      | ok c =>
        rw [hp] at heq
        exact applyCtrl_tempIffActive hs heq
    | data payload ioFail => exact dataWrite_tempIffActive hs heq

theorem runEvents_tempIffActive {s : Server} (hs : tempIffActive s) :
    ∀ evs, tempIffActive (runEvents s evs) := by
  intro evs
  induction evs generalizing s with
  | nil => exact hs
  | cons e evs ih => exact ih (runEvent_tempIffActive hs)

theorem applyCtrl_goodName {s s' : Server} {c : Cmd}
    (hs : goodName s) (h : applyCtrl s c = .ok s') : goodName s' := by
  cases c with
  | begin raw =>
    simp only [applyCtrl, Except.ok.injEq] at h
    subst h
    intro fn hfn
    cases hfn
    exact ⟨sanitizeFilename_ne_empty raw, sanitizeFilename_no_slash raw⟩
  | endCmd =>
    rw [applyCtrl] at h
    split at h
    · exact Except.ok.inj h ▸ hs
    · split at h
      · intro fn hfn
        rw [← Except.ok.inj h] at hfn
        exact absurd hfn (by simp [idleState])
      · exact absurd h (by simp)
  | abort =>
    simp only [applyCtrl, Except.ok.injEq] at h
    subst h
    intro fn hfn
    exact absurd hfn (by simp [idleState])

theorem dataWrite_goodName {s s' : Server} {p : List Nat} {f : Bool}
    (hs : goodName s) (h : dataWrite s p f = .ok s') : goodName s' := by
  rw [dataWrite] at h
  split at h
  · exact absurd h (by simp)
  · split at h
    · exact absurd h (by simp)
    · split at h
      · exact absurd h (by simp)
      · rw [← Except.ok.inj h]
        exact hs

theorem runEvent_goodName {s : Server} {e : Event} (hs : goodName s) :
    goodName (runEvent s e) := by
  rw [runEvent]
  split
  case h_2 => exact hs
  case h_1 s' heq =>
    cases e with
    | control payload =>
      rw [stepEvent, controlWrite] at heq
      cases hp : parseCtrl payload with
      | error err => rw [hp] at heq; exact absurd heq (by simp [Except.bind])
      | ok c =>
        rw [hp] at heq
        exact applyCtrl_goodName hs heq
    | data payload ioFail => exact dataWrite_goodName hs heq

theorem runEvents_goodName {s : Server} (hs : goodName s) :
    ∀ evs, goodName (runEvents s evs) := by
  intro evs
  induction evs generalizing s with
  | nil => exact hs
  | cons e evs ih => exact ih (runEvent_goodName hs)

/-- A sequence of successful chunk writes on an active transfer appends the
concatenation of the chunks to the temporary file and adds their total
length to the byte counter. -/
theorem runDataList_ok (ds : List (List Nat)) :
    ∀ (s : Server) (id : Nat), s.state.active = true →
      s.state.temp_file = some id →
      runDataList s ds = .ok
        { state := { s.state with
            bytes_received := s.state.bytes_received + (ds.map List.length).sum },
          fs := appendTemp s.fs id ds.flatten } := by
  induction ds with
  | nil =>
    intro s id ha ht
    simp [runDataList, appendTemp]
  | cons d ds ih =>
    intro s id ha ht
    rw [runDataList, dataWrite]
    simp only [ha, ht]
    norm_num
    rw [ih _ id rfl rfl]
    simp [appendTemp_appendTemp]
    omega

theorem applyCtrl_begin_inactive {s : Server} (raw : String)
    (ha : s.state.active = false) :
    applyCtrl s (.begin raw) = .ok
      { state := { active := true, filename := some (sanitizeFilename raw),
                   temp_file := some s.fs.nextTemp, bytes_received := 0 },
        fs := { entries := s.fs.entries,
                temps := s.fs.temps ++ [(s.fs.nextTemp, [])],
                nextTemp := s.fs.nextTemp + 1 } } := by
  simp only [applyCtrl, ha]

theorem applyCtrl_begin_active {s : Server} {id : Nat} (raw : String)
    (ha : s.state.active = true) (ht : s.state.temp_file = some id) :
    applyCtrl s (.begin raw) = .ok
      { state := { active := true, filename := some (sanitizeFilename raw),
                   temp_file := some s.fs.nextTemp, bytes_received := 0 },
        fs := { entries := s.fs.entries,
                temps := s.fs.temps.eraseP (fun t => t.1 == id) ++ [(s.fs.nextTemp, [])],
                nextTemp := s.fs.nextTemp + 1 } } := by
  simp only [applyCtrl, ha, ht, removeTemp]

theorem applyCtrl_end_active {s : Server} {id : Nat} {fn : String}
    (ha : s.state.active = true) (ht : s.state.temp_file = some id)
    (hf : s.state.filename = some fn) :
    applyCtrl s .endCmd = .ok
      { state := idleState,
        fs := { entries := s.fs.entries ++ [(finalizeName s.fs fn, getTemp s.fs id)],
                temps := (removeTemp s.fs id).temps,
                nextTemp := s.fs.nextTemp } } := by
  simp only [applyCtrl, ha, ht, hf]
  simp

/-- The first character of every model temporary-file name is the hiding
dot. -/
theorem tempName_head (k : Nat) : (tempName k).data.head? = some '.' := rfl

/-! ### The claims -/

/-- C4: for every sequence of commands applied from the initial state, the
temporary sink handle (`temp_file`) is non-null if and only if the phase is
Active. -/
theorem C4_sink_iff_active (fs0 : FS) (evs : List Event) :
    ((runEvents (initServer fs0) evs).state.temp_file).isSome =
      (runEvents (initServer fs0) evs).state.active :=
  runEvents_tempIffActive (by rfl) evs

/-- C7: a control-endpoint payload that is empty, carries an unrecognized
tag, or carries the BEGIN tag with no trailing filename bytes fails with
the invalid-argument error, and the transfer state and filesystem are left
unchanged. -/
theorem C7_decode_errors (s : Server) (data : List Nat)
    (h : data = [] ∨ (∃ t rest, data = t :: rest ∧ t ≠ 1 ∧ t ≠ 2 ∧ t ≠ 3) ∨
      data = [1]) :
    controlWrite s data = .error .invalidArgs ∧
    runEvent s (.control data) = s := by
  have hp : parseCtrl data = .error .invalidArgs := by
    rcases h with rfl | ⟨t, rest, rfl, h1, h2, h3⟩ | rfl
    · rfl
    · simp [parseCtrl, h1, h2, h3]
    · rfl
  have hc : controlWrite s data = .error .invalidArgs := by
    rw [controlWrite, hp]
    rfl
  exact ⟨hc, by rw [runEvent, stepEvent, hc]⟩

/-- Witness for C7 at the concrete unknown tag 0x09 on the initial
server. -/
theorem C7_witness :
    controlWrite (initServer ⟨[], [], 0⟩) [9] = .error .invalidArgs ∧
    runEvent (initServer ⟨[], [], 0⟩) (.control [9]) = initServer ⟨[], [], 0⟩ :=
  C7_decode_errors _ [9]
    (Or.inr (Or.inl ⟨9, [], rfl, by decide, by decide, by decide⟩))

/-- C8: in the Idle state, a data write is rejected with the sequence
error (`FailedException`) and changes nothing, END is a safe no-op, ABORT
is a no-op, and repeated ABORTs never raise and never alter the server. -/
theorem C8_idle_noops (s : Server) (payload rest : List Nat) (ioFail : Bool)
    (n : Nat) (h : s.state = idleState) :
    dataWrite s payload ioFail = .error .failed ∧
    runEvent s (.data payload ioFail) = s ∧
    controlWrite s (2 :: rest) = .ok s ∧
    controlWrite s (3 :: rest) = .ok s ∧
    runEvents s (List.replicate n (.control (3 :: rest))) = s := by
  obtain ⟨st, fsv⟩ := s
  simp only at h
  subst h
  have hd : dataWrite ⟨idleState, fsv⟩ payload ioFail = .error .failed := by
    simp [dataWrite, idleState]
  have he : controlWrite ⟨idleState, fsv⟩ (2 :: rest) = .ok ⟨idleState, fsv⟩ := by
    simp [controlWrite, parseCtrl, Except.bind, applyCtrl, idleState]
  have hab : controlWrite ⟨idleState, fsv⟩ (3 :: rest) = .ok ⟨idleState, fsv⟩ := by
    simp [controlWrite, parseCtrl, Except.bind, applyCtrl, idleState]
  refine ⟨hd, by rw [runEvent, stepEvent, hd], he, hab, ?_⟩
  induction n with
  | zero => rfl
  | succ m ih =>
    rw [List.replicate_succ, runEvents, List.foldl_cons]
    have h1 : runEvent ⟨idleState, fsv⟩ (.control (3 :: rest)) = ⟨idleState, fsv⟩ := by
      rw [runEvent, stepEvent, hab]
    rw [h1]
    exact ih

/-- Witness for C8 on the concrete initial server, with a data chunk, END
and two ABORTs. -/
theorem C8_witness :
    dataWrite (initServer ⟨[], [], 0⟩) [7] true = .error .failed ∧
    runEvent (initServer ⟨[], [], 0⟩) (.data [7] true) = initServer ⟨[], [], 0⟩ ∧
    controlWrite (initServer ⟨[], [], 0⟩) [2] = .ok (initServer ⟨[], [], 0⟩) ∧
    controlWrite (initServer ⟨[], [], 0⟩) [3] = .ok (initServer ⟨[], [], 0⟩) ∧
    runEvents (initServer ⟨[], [], 0⟩)
      (List.replicate 2 (.control [3])) = initServer ⟨[], [], 0⟩ :=
  C8_idle_noops _ [7] [] true 2 rfl

/-- C6 counterexample: after a BEGIN, a data write whose underlying file
write fails raises `ioError` but leaves the machine Active — the engine
does **not** transition to Idle as the claim states. -/
theorem C6_counterexample :
    (runEvent (runEvents (initServer ⟨[], [], 0⟩) [.control [1, 102]])
        (.data [55] true)).state.active = true ∧
    (runEvent (runEvents (initServer ⟨[], [], 0⟩) [.control [1, 102]])
        (.data [55] true)).state.temp_file = some 0 ∧
    dataWrite (runEvents (initServer ⟨[], [], 0⟩) [.control [1, 102]]) [55] true =
      .error .ioError := by
  refine ⟨by decide, by decide, rfl⟩

/-- C6 as amended: when the storage backend fails while appending during a
data write on an active transfer, the error propagates to the caller and
the server is left completely unchanged — still Active, temporary file
still open, no destination file created. -/
theorem C6_append_failure_propagates (s : Server) (payload : List Nat) (id : Nat)
    (ha : s.state.active = true) (ht : s.state.temp_file = some id) :
    dataWrite s payload true = .error .ioError ∧
    runEvent s (.data payload true) = s := by
  have hd : dataWrite s payload true = .error .ioError := by
    simp [dataWrite, ha, ht]
  exact ⟨hd, by rw [runEvent, stepEvent, hd]⟩

/-- Witness for C6's amended statement on a concrete active server. -/
theorem C6_witness :
    dataWrite ⟨⟨true, some "f", some 0, 0⟩, ⟨[], [(0, [])], 1⟩⟩ [55] true =
      .error .ioError ∧
    runEvent ⟨⟨true, some "f", some 0, 0⟩, ⟨[], [(0, [])], 1⟩⟩ (.data [55] true) =
      ⟨⟨true, some "f", some 0, 0⟩, ⟨[], [(0, [])], 1⟩⟩ :=
  C6_append_failure_propagates _ [55] 0 rfl rfl

/-! ### Lemmas on the ASCII variant's flat directory -/

theorem setEntry_cons_ne (e : String × List Nat) (es : List (String × List Nat))
    (n : String) (v : List Nat) (h : e.1 ≠ n) :
    setEntry (e :: es) n v = e :: setEntry es n v := by
  by_cases ha : es.any (fun x => x.1 == n) <;>
    simp [setEntry, h, ha]

theorem lookupEntry_setEntry (n : String) (v : List Nat) :
    ∀ es, lookupEntry (setEntry es n v) n = some v := by
  intro es
  induction es with
  | nil => simp [setEntry, lookupEntry]
  | cons e es ih =>
    by_cases h : e.1 = n
    · simp [setEntry, lookupEntry, h]
    · rw [setEntry_cons_ne e es n v h]
      simpa [lookupEntry, List.find?_cons,
        show (e.1 == n) = false by simpa using h] using ih

theorem keys_setEntry (n : String) (v : List Nat) :
    ∀ es, (setEntry es n v).map Prod.fst =
      if es.any (fun e => e.1 == n) then es.map Prod.fst
      else es.map Prod.fst ++ [n] := by
  intro es
  induction es with
  | nil => simp [setEntry]
  | cons e es ih =>
    by_cases h : e.1 = n
    · simp only [setEntry, List.any_cons, h, beq_self_eq_true, Bool.true_or, if_true]
      simp only [List.map_map]
      have : (Prod.fst ∘ fun x : String × List Nat =>
          if x.1 == n then (x.1, v) else x) = Prod.fst := by
        funext x
        by_cases hx : x.1 = n <;> simp [hx, Function.comp]
      rw [List.map_cons]
      simp only [this]
      simp [h]
    · rw [setEntry_cons_ne e es n v h, List.map_cons, ih]
      by_cases ha : es.any (fun x => x.1 == n) <;> simp [ha, h]

/-! ### Claims on the read-back status and the ASCII variant -/

/-- C9 counterexample: in the binary variant named by the claim's code
sources, a read on the control endpoint never succeeds: the characteristic
has no read flag, and the inherited `ReadValue` raises `NotSupported`, so
there is no status token to return. -/
theorem C9_counterexample :
    gattControlRead = .error .notSupported ∧ "read" ∉ gattControlFlags := by
  exact ⟨rfl, by decide⟩

/-- C9 as amended: in the binary-protocol server the control endpoint is
write-only — reads always fail with `NotSupported` and no status token
exists; the described status read-back lives in the ASCII variant, whose
control characteristic read always succeeds, returns READY at startup, and
returns STARTED / SAVED / CANCELLED / ERROR as the commands set them. -/
theorem C9_status_read (fs0 : List (String × List Nat)) (st : BtState) :
    gattControlRead = .error .notSupported ∧
    btControlRead (btInit fs0) = asciiStr "READY" ∧
    btControlRead (btControlWrite st "START") = asciiStr "STARTED" ∧
    (st.fileName = "" →
      btControlRead (btControlWrite st "END") = asciiStr "ERROR") ∧
    (st.fileName ≠ "" → btPathOk st.fileName = true →
      btControlRead (btControlWrite st "END") = asciiStr "SAVED") ∧
    btControlRead (btControlWrite st "CANCEL") = asciiStr "CANCELLED" := by
  refine ⟨rfl, rfl, rfl, ?_, ?_, ?_⟩
  · intro h
    simp [btControlWrite, btControlRead, h]
  · intro h1 h2
    simp [btControlWrite, btControlRead, h1, h2]
  · simp [btControlWrite, btControlRead]

/-- Witness for C9's amended statement: END with a set name reports SAVED,
END without a name reports ERROR. -/
theorem C9_witness :
    btControlRead (btControlWrite ⟨[1], "doc.txt", asciiStr "READY", []⟩ "END") =
      asciiStr "SAVED" ∧
    btControlRead (btControlWrite (btInit []) "END") = asciiStr "ERROR" :=
  ⟨(C9_status_read [] ⟨[1], "doc.txt", asciiStr "READY", []⟩).2.2.2.2.1
      (by decide) (by decide),
   (C9_status_read [] (btInit [])).2.2.2.1 rfl⟩

/-- C10: in the ASCII variant, END writes the global buffer directly to
`upload_dir/file_name` with a truncating open — an existing entry of that
name is overwritten in place, the set of names gains at most the declared
name itself (no temporary, no rename, no numeric suffix) — and END with no
file name set reports ERROR and changes neither buffer nor directory. -/
theorem C10_ascii_end_direct (st : BtState) (es : List (String × List Nat))
    (n : String) (v : List Nat) :
    (st.fileName ≠ "" → btPathOk st.fileName = true →
      btControlWrite st "END" =
        { st with fs := setEntry st.fs st.fileName st.fileBuffer,
                  ctrlValue := asciiStr "SAVED", fileBuffer := [] }) ∧
    (st.fileName = "" →
      btControlWrite st "END" = { st with ctrlValue := asciiStr "ERROR" }) ∧
    lookupEntry (setEntry es n v) n = some v ∧
    (setEntry es n v).map Prod.fst =
      (if es.any (fun e => e.1 == n) then es.map Prod.fst
       else es.map Prod.fst ++ [n]) := by
  refine ⟨?_, ?_, lookupEntry_setEntry n v es, keys_setEntry n v es⟩
  · intro h1 h2
    simp [btControlWrite, h1, h2]
  · intro h
    simp [btControlWrite, h]

/-- Witness for C10: overwriting an existing `doc.txt`, and the
no-name ERROR branch, on concrete states. -/
theorem C10_witness :
    btControlWrite ⟨[5, 6], "doc.txt", asciiStr "READY", [("doc.txt", [1])]⟩ "END" =
      ⟨[], "doc.txt", asciiStr "SAVED", [("doc.txt", [5, 6])]⟩ ∧
    btControlWrite (btInit []) "END" =
      ⟨[], "", asciiStr "ERROR", []⟩ ∧
    lookupEntry (setEntry [("doc.txt", [1])] "doc.txt" [5, 6]) "doc.txt" =
      some [5, 6] := by
  refine ⟨?_, ?_, ?_⟩
  · have h := (C10_ascii_end_direct
      ⟨[5, 6], "doc.txt", asciiStr "READY", [("doc.txt", [1])]⟩ [] "x" []).1
      (by decide) (by decide)
    rw [h]
    decide
  · exact (C10_ascii_end_direct (btInit []) [] "x" []).2.1 rfl
  · exact (C10_ascii_end_direct (btInit []) [("doc.txt", [1])] "doc.txt" [5, 6]).2.2.1

/-- C2 counterexample: a BEGIN whose filename bytes decode to `".."`
(0x2E 0x2E) stores `declared_name = ".."` — `os.path.basename('..')` is
`'..'` — refuting the claim that the sanitized name is never `".."`. -/
theorem C2_counterexample :
    (runEvents (initServer ⟨[], [], 0⟩) [.control [1, 46, 46]]).state.filename =
      some ".." := by
  decide

/-- C2 as amended: the sanitized declared name is always non-empty and
free of separators, but it can be `"."` or `".."`; nevertheless every
entry a successful control write adds to the directory is a genuine single
segment (non-empty, separator-free, and neither `"."` nor `".."`, because
those two always exist and therefore trigger the numeric-suffix rename),
so every finalized file resides directly inside the upload directory. -/
theorem C2_sanitized_names (raw : String) (fs0 : FS) (evs : List Event)
    (payload : List Nat) (s' : Server)
    (h : controlWrite (runEvents (initServer fs0) evs) payload = .ok s') :
    (sanitizeFilename raw ≠ "" ∧ '/' ∉ (sanitizeFilename raw).data) ∧
    ∀ e ∈ s'.fs.entries,
      e ∈ (runEvents (initServer fs0) evs).fs.entries ∨ goodSeg e.1 := by
  refine ⟨⟨sanitizeFilename_ne_empty raw, sanitizeFilename_no_slash raw⟩, ?_⟩
  set s := runEvents (initServer fs0) evs with hs
  have hg : goodName s := by
    refine runEvents_goodName ?_ evs
    intro fn hfn
    exact absurd hfn (by simp [initServer, idleState])
  rw [controlWrite] at h
  cases hp : parseCtrl payload with
  | error err =>
    rw [hp] at h
    exact absurd h (by simp [Except.bind])
  | ok c =>
    rw [hp] at h
    replace h : applyCtrl s c = .ok s' := h
    cases c with
    | begin r =>
      simp only [applyCtrl, Except.ok.injEq] at h
      subst h
      intro e he
      left
      cases hA : s.state.active <;> cases hT : s.state.temp_file <;>
        simp_all [removeTemp]
    | endCmd =>
      rw [applyCtrl] at h
      split at h
      · rw [← Except.ok.inj h]
        intro e he
        exact Or.inl he
      · split at h
        case h_1 id fn hT hF =>
          rw [← Except.ok.inj h]
          intro e he
          simp only [List.mem_append, List.mem_singleton] at he
          rcases he with he | he
          · exact Or.inl he
          · right
            obtain ⟨h1, h2⟩ := hg fn hF
            rw [he]
            exact goodSeg_finalizeName s.fs fn h1 h2
        case h_2 =>
          exact absurd h (by simp)
    | abort =>
      simp only [applyCtrl, Except.ok.injEq] at h
      subst h
      intro e he
      left
      cases hA : s.state.active <;> cases hT : s.state.temp_file <;>
        simp_all [removeTemp]

/-- Witness for C2's amended statement: a BEGIN of `"x"` followed by END
on an empty directory adds the entry `("x", [])`, which is a genuine
segment inside the upload directory. -/
theorem C2_witness :
    ("x", ([] : List Nat)) ∈
        (runEvents (initServer ⟨[], [], 0⟩) [.control [1, 120]]).fs.entries ∨
      goodSeg "x" :=
  (C2_sanitized_names "a/b" ⟨[], [], 0⟩ [.control [1, 120]] [2]
      ⟨idleState, ⟨[("x", [])], [], 1⟩⟩ rfl).2 ("x", []) (by decide)

/-- C5: if `upload_dir/report.txt` already exists with contents `y`, then
`Begin("report.txt") → Data(x) → End` creates `upload_dir/report_1.txt`
containing exactly `x` and leaves `report.txt` untouched; and, in general,
the finalize step on a taken name returns the candidate with the least
counter `K ≥ 1` whose `stem_K ++ ext` name is free, all lower counters
being taken. -/
theorem C5_collision_suffix :
    (∀ x y : List Nat,
      ∃ s', (applyCtrl ⟨idleState, ⟨[("report.txt", y)], [], 0⟩⟩
              (.begin "report.txt")).bind
            (fun s1 => (dataWrite s1 x false).bind
              (fun s2 => applyCtrl s2 .endCmd)) = .ok s' ∧
        s'.fs.entries = [("report.txt", y), ("report_1.txt", x)] ∧
        s'.fs.temps = [] ∧ s'.state = idleState) ∧
    (∀ (fs : FS) (name : String), pexists fs name = true →
      ∃ K, 1 ≤ K ∧
        finalizeName fs name =
          mkCand (pySplitExt name).1 (pySplitExt name).2 K ∧
        pexists fs (mkCand (pySplitExt name).1 (pySplitExt name).2 K) = false ∧
        ∀ j, 1 ≤ j → j < K →
          pexists fs (mkCand (pySplitExt name).1 (pySplitExt name).2 j) = true) := by
  constructor
  · intro x y
    exact ⟨⟨idleState, ⟨[("report.txt", y), ("report_1.txt", x)], [], 1⟩⟩,
      rfl, rfl, rfl, rfl⟩
  · intro fs name h
    exact finalizeName_collision fs name h

/-- Witness for C5: on a directory holding only `report.txt`, the general
rule gives `report_1.txt` (counter 1), and the name was indeed taken. -/
theorem C5_witness :
    finalizeName ⟨[("report.txt", [9])], [], 0⟩ "report.txt" = "report_1.txt" ∧
    pexists ⟨[("report.txt", [9])], [], 0⟩ "report.txt" = true := by
  refine ⟨?_, by decide⟩
  obtain ⟨K, hK1, heq, hfree, hmin⟩ :=
    C5_collision_suffix.2 ⟨[("report.txt", [9])], [], 0⟩ "report.txt" (by decide)
  have hK : K = 1 := by
    by_contra hne
    have h1 := hmin 1 le_rfl (by omega)
    have h2 : pexists ⟨[("report.txt", [9])], [], 0⟩
        (mkCand (pySplitExt "report.txt").1 (pySplitExt "report.txt").2 1) =
          false := by decide
    rw [h2] at h1
    exact absurd h1 (by decide)
  rw [hK] at heq
  rw [heq]
  decide

/-- C1: from the Idle state, `Begin(name) → Data(b1) → Data(b2) → End`
creates exactly one file, containing `b1 ++ b2`, under `upload_dir/name`
(or under a numerically disambiguated variant when `upload_dir/name`
already existed), and returns the machine to Idle.  `name` ranges over
genuine filenames (fixed points of the sanitizer), and — as with the
unpredictable random temporary names of the real sink — never coincides
with a model temporary name. -/
theorem C1_roundtrip (s : Server) (name : String) (b1 b2 : List Nat)
    (hsan : sanitizeFilename name = name)
    (htn : ∀ k, tempName k ≠ name)
    (ha : s.state.active = false)
    (hw : ∀ t ∈ s.fs.temps, t.1 < s.fs.nextTemp) :
    ∃ s4 fname,
      (applyCtrl s (.begin name)).bind
        (fun s1 => (dataWrite s1 b1 false).bind
          (fun s2 => (dataWrite s2 b2 false).bind
            (fun s3 => applyCtrl s3 .endCmd))) = .ok s4 ∧
      s4.fs.entries = s.fs.entries ++ [(fname, b1 ++ b2)] ∧
      s4.fs.temps = s.fs.temps ∧
      s4.state = idleState ∧
      (pexists s.fs name = false → fname = name) ∧
      (pexists s.fs name = true → ∃ k, 1 ≤ k ∧
        fname = mkCand (pySplitExt name).1 (pySplitExt name).2 k) := by
  have hfr : ∀ t ∈ s.fs.temps, t.1 ≠ s.fs.nextTemp :=
    fun t ht => Nat.ne_of_lt (hw t ht)
  have h1 : applyCtrl s (.begin name) = .ok
      ⟨⟨true, some name, some s.fs.nextTemp, 0⟩,
       ⟨s.fs.entries, s.fs.temps ++ [(s.fs.nextTemp, [])], s.fs.nextTemp + 1⟩⟩ := by
    rw [applyCtrl_begin_inactive name ha, hsan]
  have h2 : dataWrite
      ⟨⟨true, some name, some s.fs.nextTemp, 0⟩,
       ⟨s.fs.entries, s.fs.temps ++ [(s.fs.nextTemp, [])], s.fs.nextTemp + 1⟩⟩
      b1 false = .ok
      ⟨⟨true, some name, some s.fs.nextTemp, b1.length⟩,
       ⟨s.fs.entries, s.fs.temps ++ [(s.fs.nextTemp, b1)], s.fs.nextTemp + 1⟩⟩ := by
    simp [dataWrite, appendTemp, List.map_append,
      map_update_fresh_eq s.fs.temps s.fs.nextTemp b1 hfr]
  have h3 : dataWrite
      ⟨⟨true, some name, some s.fs.nextTemp, b1.length⟩,
       ⟨s.fs.entries, s.fs.temps ++ [(s.fs.nextTemp, b1)], s.fs.nextTemp + 1⟩⟩
      b2 false = .ok
      ⟨⟨true, some name, some s.fs.nextTemp, b1.length + b2.length⟩,
       ⟨s.fs.entries, s.fs.temps ++ [(s.fs.nextTemp, b1 ++ b2)],
        s.fs.nextTemp + 1⟩⟩ := by
    simp [dataWrite, appendTemp, List.map_append,
      map_update_fresh_eq s.fs.temps s.fs.nextTemp b2 hfr]
  have hget : getTemp
      ⟨s.fs.entries, s.fs.temps ++ [(s.fs.nextTemp, b1 ++ b2)],
       s.fs.nextTemp + 1⟩ s.fs.nextTemp = b1 ++ b2 :=
    getTemp_append_fresh ⟨s.fs.entries, s.fs.temps, s.fs.nextTemp + 1⟩
      s.fs.nextTemp (b1 ++ b2) hfr
  have herase : ((s.fs.temps ++ [(s.fs.nextTemp, b1 ++ b2)]).eraseP
      (fun t => t.1 == s.fs.nextTemp)) = s.fs.temps :=
    eraseP_append_fresh s.fs.temps s.fs.nextTemp (b1 ++ b2) hfr
  have h4 : applyCtrl
      ⟨⟨true, some name, some s.fs.nextTemp, b1.length + b2.length⟩,
       ⟨s.fs.entries, s.fs.temps ++ [(s.fs.nextTemp, b1 ++ b2)],
        s.fs.nextTemp + 1⟩⟩ .endCmd = .ok
      ⟨idleState,
       ⟨s.fs.entries ++
          [(finalizeName
              ⟨s.fs.entries, s.fs.temps ++ [(s.fs.nextTemp, b1 ++ b2)],
               s.fs.nextTemp + 1⟩ name, b1 ++ b2)],
        s.fs.temps, s.fs.nextTemp + 1⟩⟩ := by
    rw [applyCtrl_end_active rfl rfl rfl]
    rw [hget]
    simp only [removeTemp]
    rw [herase]
  have hpe : pexists
      ⟨s.fs.entries, s.fs.temps ++ [(s.fs.nextTemp, b1 ++ b2)],
       s.fs.nextTemp + 1⟩ name = pexists s.fs name := by
    simp [pexists, List.any_append,
      beq_eq_false_iff_ne.mpr (htn s.fs.nextTemp)]
  refine ⟨⟨idleState,
      ⟨s.fs.entries ++
          [(finalizeName
              ⟨s.fs.entries, s.fs.temps ++ [(s.fs.nextTemp, b1 ++ b2)],
               s.fs.nextTemp + 1⟩ name, b1 ++ b2)],
        s.fs.temps, s.fs.nextTemp + 1⟩⟩,
    finalizeName
      ⟨s.fs.entries, s.fs.temps ++ [(s.fs.nextTemp, b1 ++ b2)],
       s.fs.nextTemp + 1⟩ name, ?_, rfl, rfl, rfl, ?_, ?_⟩
  · rw [h1]
    show (dataWrite
        ⟨⟨true, some name, some s.fs.nextTemp, 0⟩,
         ⟨s.fs.entries, s.fs.temps ++ [(s.fs.nextTemp, [])],
          s.fs.nextTemp + 1⟩⟩ b1 false).bind
      (fun s2 => (dataWrite s2 b2 false).bind
        (fun s3 => applyCtrl s3 .endCmd)) = _
    rw [h2]
    show (dataWrite
        ⟨⟨true, some name, some s.fs.nextTemp, b1.length⟩,
         ⟨s.fs.entries, s.fs.temps ++ [(s.fs.nextTemp, b1)],
          s.fs.nextTemp + 1⟩⟩ b2 false).bind
      (fun s3 => applyCtrl s3 .endCmd) = _
    rw [h3]
    show applyCtrl
        ⟨⟨true, some name, some s.fs.nextTemp, b1.length + b2.length⟩,
         ⟨s.fs.entries, s.fs.temps ++ [(s.fs.nextTemp, b1 ++ b2)],
          s.fs.nextTemp + 1⟩⟩ .endCmd = _
    exact h4
  · intro hpf
    rw [finalizeName, hpe, hpf]
    simp
  · intro hpt
    obtain ⟨K, hK1, heq, _, _⟩ :=
      finalizeName_collision _ name (hpe.trans hpt)
    exact ⟨K, hK1, heq⟩

/-- Witness for C1: uploading `doc.txt` with chunks `[1]` and `[2, 3]` into
an empty directory yields exactly the file `doc.txt` with contents
`[1, 2, 3]` and an Idle machine. -/
theorem C1_witness :
    ∃ s4 fname,
      (applyCtrl (initServer ⟨[], [], 0⟩) (.begin "doc.txt")).bind
        (fun s1 => (dataWrite s1 [1] false).bind
          (fun s2 => (dataWrite s2 [2, 3] false).bind
            (fun s3 => applyCtrl s3 .endCmd))) = .ok s4 ∧
      s4.fs.entries = ([] : List (String × List Nat)) ++ [(fname, [1] ++ [2, 3])] ∧
      s4.fs.temps = ([] : List (Nat × List Nat)) ∧
      s4.state = idleState ∧
      (pexists ⟨[], [], 0⟩ "doc.txt" = false → fname = "doc.txt") ∧
      (pexists ⟨[], [], 0⟩ "doc.txt" = true → ∃ k, 1 ≤ k ∧
        fname = mkCand (pySplitExt "doc.txt").1 (pySplitExt "doc.txt").2 k) :=
  C1_roundtrip (initServer ⟨[], [], 0⟩) "doc.txt" [1] [2, 3] (by decide)
    (fun k => by
      intro hcontra
      have h0 : (tempName k).data.head? = ("doc.txt" : String).data.head? :=
        congrArg (fun t : String => t.data.head?) hcontra
      rw [tempName_head] at h0
      exact absurd h0 (by decide))
    rfl (fun t ht => absurd ht (List.not_mem_nil t))

/-- C3: `Begin(name1)` followed by data chunks and then `Begin(name2)`
with no intervening End/Abort deletes the temporary file of the first
transfer together with every byte written to it, creates no visible file,
and leaves the machine Active on a fresh transfer for `name2` with the
byte counter reset to 0. -/
theorem C3_restart_discards (s : Server) (name1 name2 : String)
    (ds : List (List Nat))
    (ha : s.state.active = false)
    (hw : ∀ t ∈ s.fs.temps, t.1 < s.fs.nextTemp) :
    ∃ s3 id1,
      (applyCtrl s (.begin name1)).bind
        (fun s1 => (runDataList s1 ds).bind
          (fun s2 => applyCtrl s2 (.begin name2))) = .ok s3 ∧
      s3.state = ⟨true, some (sanitizeFilename name2), some id1, 0⟩ ∧
      s3.fs.entries = s.fs.entries ∧
      s3.fs.temps = s.fs.temps ++ [(id1, [])] := by
  have hfr : ∀ t ∈ s.fs.temps, t.1 ≠ s.fs.nextTemp :=
    fun t ht => Nat.ne_of_lt (hw t ht)
  have h1 := applyCtrl_begin_inactive name1 ha
  have h2 := runDataList_ok ds
      ⟨⟨true, some (sanitizeFilename name1), some s.fs.nextTemp, 0⟩,
       ⟨s.fs.entries, s.fs.temps ++ [(s.fs.nextTemp, [])], s.fs.nextTemp + 1⟩⟩
      s.fs.nextTemp rfl rfl
  have htmp : appendTemp
      ⟨s.fs.entries, s.fs.temps ++ [(s.fs.nextTemp, [])], s.fs.nextTemp + 1⟩
      s.fs.nextTemp ds.flatten =
      ⟨s.fs.entries, s.fs.temps ++ [(s.fs.nextTemp, ds.flatten)],
       s.fs.nextTemp + 1⟩ := by
    simp [appendTemp, List.map_append,
      map_update_fresh_eq s.fs.temps s.fs.nextTemp ds.flatten hfr]
  rw [htmp] at h2
  have h3 := @applyCtrl_begin_active
      ⟨⟨true, some (sanitizeFilename name1), some s.fs.nextTemp,
        0 + (ds.map List.length).sum⟩,
       ⟨s.fs.entries, s.fs.temps ++ [(s.fs.nextTemp, ds.flatten)],
        s.fs.nextTemp + 1⟩⟩ s.fs.nextTemp name2 rfl rfl
  have herase : ((s.fs.temps ++ [(s.fs.nextTemp, ds.flatten)]).eraseP
      (fun t => t.1 == s.fs.nextTemp)) = s.fs.temps :=
    eraseP_append_fresh s.fs.temps s.fs.nextTemp ds.flatten hfr
  rw [herase] at h3
  refine ⟨⟨⟨true, some (sanitizeFilename name2), some (s.fs.nextTemp + 1), 0⟩,
      ⟨s.fs.entries, s.fs.temps ++ [(s.fs.nextTemp + 1, [])],
       s.fs.nextTemp + 1 + 1⟩⟩, s.fs.nextTemp + 1, ?_, rfl, rfl, rfl⟩
  rw [h1]
  show (runDataList
      ⟨⟨true, some (sanitizeFilename name1), some s.fs.nextTemp, 0⟩,
       ⟨s.fs.entries, s.fs.temps ++ [(s.fs.nextTemp, [])],
        s.fs.nextTemp + 1⟩⟩ ds).bind
    (fun s2 => applyCtrl s2 (.begin name2)) = _
  rw [h2]
  show applyCtrl
      ⟨⟨true, some (sanitizeFilename name1), some s.fs.nextTemp,
        0 + (ds.map List.length).sum⟩,
       ⟨s.fs.entries, s.fs.temps ++ [(s.fs.nextTemp, ds.flatten)],
        s.fs.nextTemp + 1⟩⟩ (.begin name2) = _
  exact h3

/-- Witness for C3: restarting with `b.txt` after beginning `a.txt` and
writing `[1]` and `[2]` discards everything and opens a fresh empty
transfer. -/
theorem C3_witness :
    ∃ s3 id1,
      (applyCtrl (initServer ⟨[], [], 0⟩) (.begin "a.txt")).bind
        (fun s1 => (runDataList s1 [[1], [2]]).bind
          (fun s2 => applyCtrl s2 (.begin "b.txt"))) = .ok s3 ∧
      s3.state = ⟨true, some (sanitizeFilename "b.txt"), some id1, 0⟩ ∧
      s3.fs.entries = ([] : List (String × List Nat)) ∧
      s3.fs.temps = ([] : List (Nat × List Nat)) ++ [(id1, [])] :=
  C3_restart_discards (initServer ⟨[], [], 0⟩) "a.txt" "b.txt" [[1], [2]]
    rfl (fun t ht => absurd ht (List.not_mem_nil t))

end Gatt
